import Mathlib

/-!
Verification of the agent-orchestrator core against its specification.

Strings from the TypeScript source are modelled as `List Char` so that the
slicing, trimming and tokenizing done by the source can be stated and proved
with list lemmas.  Remote language-model calls and `JSON.parse` are platform
primitives, not repository code; they are modelled as explicit parameters
(an outcome value for the call, an oracle function for the parser), so every
definition stays executable and the control flow around those primitives is
translated from the source verbatim.
-/

set_option maxRecDepth 100000

abbrev Str := List Char

/-- Whitespace as matched by the `\s` regex class and by `String.trim` in the
source runtime (ASCII subset; the Unicode space classes are not exercised by
any claim). -/
def isJsWhitespace (c : Char) : Bool :=
  c = ' ' || c = '\t' || c = '\n' || c = '\r' || c = '\x0b' || c = '\x0c'

/-- Model of `String.prototype.trim`: drop whitespace from both ends. -/
def jsTrim (s : Str) : Str :=
  ((s.dropWhile isJsWhitespace).reverse.dropWhile isJsWhitespace).reverse

/-- Model of `s.slice(-n)`: the last `min n s.length` characters of `s`. -/
def sliceLast (n : Nat) (s : Str) : Str := s.drop (s.length - n)

/-- Accumulator worker for `splitWs`: `acc` holds the reversed current word. -/
def splitWsAux : Str → Str → List Str
  | [], acc => if acc = [] then [] else [acc.reverse]
  | c :: rest, acc =>
    if isJsWhitespace c then
      if acc = [] then splitWsAux rest [] else acc.reverse :: splitWsAux rest []
    else splitWsAux rest (c :: acc)

/-- Tokenization on runs of whitespace, as `split(/\s+/)` behaves on a
trimmed string: maximal whitespace-free words, in order, empties dropped. -/
def splitWs (s : Str) : List Str := splitWsAux s []

/-- Index of the first occurrence of `c` in `s`, if any. -/
def firstIdxOf (c : Char) (s : Str) : Option Nat :=
  s.findIdx? (· = c)

/-- Index of the last occurrence of `c` in `s`, if any. -/
def lastIdxOf (c : Char) (s : Str) : Option Nat :=
  (s.reverse.findIdx? (· = c)).map (fun k => s.length - 1 - k)

/-- Model of `s.lastIndexOf(c)` from JavaScript: the index, or `-1`. -/
def lastIndexOf (c : Char) (s : Str) : Int :=
  match lastIdxOf c s with
  | none => -1
  | some i => (i : Int)

/-- Model of `text.match(/\x7b[\s\S]*\x7d/)`: the greedy regex matches from
the first opening brace to the last closing brace whenever the first opening
brace is strictly before the last closing brace, and fails otherwise. -/
def extractJsonSpan (t : Str) : Option Str :=
  match firstIdxOf '\x7b' t, lastIdxOf '\x7d' t with
  | some i, some j => if i < j then some ((t.drop i).take (j + 1 - i)) else none
  | _, _ => none

/-! ## Data model (src/types.ts is not in the tree; the record shapes below
follow the spec data model in section 3 together with every field access the
sources under src/ actually perform). -/

/-- Agent lifecycle states from the spec state machine (section 4.3); the
store creates agents in `starting`, the detector reports `working`,
`needs_input` or `done`, and `error` exists in the enum. -/
inductive AgState where
  | starting
  | working
  | needs_input
  | done
  | error
deriving DecidableEq

/-- AgentStatus from src/types.ts usage: id, state, summary, lastOutput. -/
structure AgentStatus where
  id : Str
  state : AgState
  summary : Str
  lastOutput : Str
deriving DecidableEq

/-- `Partial AgentStatus` as used by updateAgentStatus: every field may be
absent; a present field overwrites on merge (object spread semantics). -/
structure StatusPatch where
  id : Option Str := none
  state : Option AgState := none
  summary : Option Str := none
  lastOutput : Option Str := none
deriving DecidableEq

/-- Agent kinds; App.tsx only ever builds claude-code configs. -/
inductive AgentKind where
  | claudeCode
  | amp
deriving DecidableEq

/-- AgentConfig as built in App.tsx handleSubmit. -/
structure AgentConfig where
  id : Str
  kind : AgentKind
  workingDirectory : Str
  task : Str
  tools : Option (List Str) := none
deriving DecidableEq

/-- An agent aggregate as stored in src/store.ts.  The handle is an opaque
capability object; it is modelled by a numeric token so that kill events can
name the handle they were invoked on. -/
structure Agent where
  config : AgentConfig
  handle : Nat
  status : AgentStatus
  outputBuffer : Str
deriving DecidableEq

/-- The store record from src/store.ts.  The JavaScript `Map` is modelled as
an insertion-ordered association list with unique keys. -/
structure Store where
  agents : List (Str × Agent)
  focusedAgentId : Option Str
  orchestratorInput : Str
deriving DecidableEq

/-- `map.get(k)` on the association-list model. -/
def mapGet (k : Str) : List (Str × Agent) → Option Agent
  | [] => none
  | p :: rest => if p.1 = k then some p.2 else mapGet k rest

/-- `map.set(k, v)`: replace in place if the key exists, else append. -/
def mapSet (k : Str) (v : Agent) : List (Str × Agent) → List (Str × Agent)
  | [] => [(k, v)]
  | p :: rest => if p.1 = k then (k, v) :: rest else p :: mapSet k v rest

/-- In-place mutation of the entry found by `map.get(k)`, if any. -/
def mapAdjust (k : Str) (f : Agent → Agent) : List (Str × Agent) → List (Str × Agent)
  | [] => []
  | p :: rest => if p.1 = k then (p.1, f p.2) :: rest else p :: mapAdjust k f rest

/-- `map.delete(k)`. -/
def mapDelete (k : Str) : List (Str × Agent) → List (Str × Agent)
  | [] => []
  | p :: rest => if p.1 = k then rest else p :: mapDelete k rest

/-! ## Store operations (src/store.ts, logger-instrumented version; the
logger calls are I/O-only and elided).  `addAgent` and `removeAgent` also
return the list of handles whose kill capability the operation invoked, so
that claims about kill behavior are statable; all other operations never
touch a handle. -/

def createEmptyStore : Store :=
  { agents := [], focusedAgentId := none, orchestratorInput := [] }

def addAgent (config : AgentConfig) (handle : Nat) (s : Store) : Store × List Nat :=
  let agent : Agent :=
    { config := config
      handle := handle
      status := { id := config.id, state := .starting, summary := [], lastOutput := [] }
      outputBuffer := [] }
  ({ s with agents := mapSet config.id agent s.agents }, [])

/-- Object-spread merge `\x7b ...agent.status, ...status \x7d`. -/
def mergeStatus (st : AgentStatus) (patch : StatusPatch) : AgentStatus :=
  { id := patch.id.getD st.id
    state := patch.state.getD st.state
    summary := patch.summary.getD st.summary
    lastOutput := patch.lastOutput.getD st.lastOutput }

def updateAgentStatus (id : Str) (patch : StatusPatch) (s : Store) : Store :=
  { s with agents := mapAdjust id (fun a => { a with status := mergeStatus a.status patch }) s.agents }

def MAX_OUTPUT_BUFFER_LENGTH : Nat := 2000

def MAX_LAST_OUTPUT_LENGTH : Nat := 500

/-- The conditional truncation step: slice the buffer down to its last 2000
characters only when it exceeds 2000. -/
def truncBuf (buf : Str) : Str :=
  if buf.length > MAX_OUTPUT_BUFFER_LENGTH
  then sliceLast MAX_OUTPUT_BUFFER_LENGTH buf else buf

/-- The mutation appendAgentOutput performs on the found agent: concatenate
the chunk, truncate the buffer to its last 2000 characters when it now
exceeds 2000, refresh `status.lastOutput` to the last 500 characters of the
(possibly truncated) buffer. -/
def appendUpd (chunk : Str) (a : Agent) : Agent :=
  { a with
    outputBuffer := truncBuf (a.outputBuffer ++ chunk)
    status := { a.status with
      lastOutput := sliceLast MAX_LAST_OUTPUT_LENGTH (truncBuf (a.outputBuffer ++ chunk)) } }

def appendAgentOutput (id : Str) (chunk : Str) (s : Store) : Store :=
  { s with agents := mapAdjust id (appendUpd chunk) s.agents }

def setFocusedAgent (id : Option Str) (s : Store) : Store :=
  { s with focusedAgentId := id }

def removeAgent (id : Str) (s : Store) : Store × List Nat :=
  match mapGet id s.agents with
  | some agent => ({ s with agents := mapDelete id s.agents }, [agent.handle])
  | none => (s, [])

/-! ## Remote call model.  The chat-completion endpoint either throws or
returns a list of content blocks of which only the first is inspected; a
non-text first block degrades to the empty string (src/status-detector.ts
line 44, src/input-cleaner.ts line 56). -/

inductive ContentBlock where
  | text (s : Str)
  | toolUse
deriving DecidableEq

structure ApiResponse where
  content : List ContentBlock
deriving DecidableEq

inductive RemoteOutcome where
  | throws
  | returns (r : ApiResponse)
deriving DecidableEq

/-- The shape `JSON.parse` is cast to in src/status-detector.ts.  The cast is
unchecked in the source, so `status` is modelled at the full state enum. -/
structure DetectionResult where
  status : AgState
  summary : Str
deriving DecidableEq

/-- Fallback value built in the catch arm of detectStatus. -/
def fallbackPatch (truncated : Str) : StatusPatch :=
  { id := none, state := some .working, summary := some "Processing...".toList,
    lastOutput := some truncated }

/-- detectStatus from src/src/status-detector.ts.  `parseDet` is the
`JSON.parse` oracle (`none` models a parse exception) and `outcome` the
remote call result; the first component of the result records the truncated
agent output embedded in the prompt that was sent to the model, the second is
the returned partial status.  Every exception path of the source (remote call
throw, index into empty content, missing JSON span, parse throw) lands in the
single catch arm producing `fallbackPatch`. -/
def detectStatus (parseDet : Str → Option DetectionResult) (_agentId : Str)
    (recentOutput : Str) (outcome : RemoteOutcome) : Str × StatusPatch :=
  let truncated := sliceLast 500 recentOutput
  (truncated,
    match outcome with
    | .throws => fallbackPatch truncated
    | .returns r =>
      match r.content with
      | [] => fallbackPatch truncated
      | b :: _ =>
        let text := match b with | .text s => s | .toolUse => []
        match extractJsonSpan text with
        | none => fallbackPatch truncated
        | some span =>
          match parseDet span with
          | none => fallbackPatch truncated
          | some parsed =>
            { id := none, state := some parsed.status,
              summary := some parsed.summary, lastOutput := some truncated })

structure TaskItem where
  prompt : Str
  suggestedTools : Option (List Str) := none
deriving DecidableEq

structure CleanedInput where
  tasks : List TaskItem
  clarificationNeeded : Option Str := none
deriving DecidableEq

/-- cleanInput from src/src/input-cleaner.ts.  Blank input short-circuits
before the remote call (the result does not depend on `outcome`); otherwise
the whole response text is handed to `JSON.parse` (oracle `parseClean`,
`none` modelling a parse exception), and any exception lands in the catch arm
returning the raw input as a single task. -/
def cleanInput (parseClean : Str → Option CleanedInput) (rawInput : Str)
    (outcome : RemoteOutcome) : CleanedInput :=
  if jsTrim rawInput = [] then
    { tasks := [], clarificationNeeded := some "Please provide a task description.".toList }
  else
    match outcome with
    | .throws => { tasks := [{ prompt := rawInput, suggestedTools := none }], clarificationNeeded := none }
    | .returns r =>
      match r.content with
      | [] => { tasks := [{ prompt := rawInput, suggestedTools := none }], clarificationNeeded := none }
      | b :: _ =>
        let text := match b with | .text s => s | .toolUse => []
        match parseClean text with
        | some parsed => parsed
        | none => { tasks := [{ prompt := rawInput, suggestedTools := none }], clarificationNeeded := none }

/-! ## Orchestration loop (src/src/components/App.tsx). -/

/-- The partial status installed by the exit callback registered in
handleSubmit (App.tsx line 84): state done, nothing else. -/
def exitPatch : StatusPatch :=
  { id := none, state := some .done, summary := none, lastOutput := none }

/-- Loop body of the periodic refresh, for one entry of the agents map: skip
unless the state is working or starting, skip when the buffer is empty, else
invoke the Status Classifier on the full buffer (logging that invocation) and
merge the returned partial status into the store. -/
def refreshStep (parseDet : Str → Option DetectionResult)
    (outcomes : Str → RemoteOutcome) (acc : Store × List (Str × Str))
    (entry : Str × Agent) : Store × List (Str × Str) :=
  if entry.2.status.state = .working ∨ entry.2.status.state = .starting then
    if entry.2.outputBuffer = [] then acc
    else
      let call := detectStatus parseDet entry.1 entry.2.outputBuffer (outcomes entry.1)
      (updateAgentStatus entry.1 call.2 acc.1, acc.2 ++ [(entry.1, entry.2.outputBuffer)])
  else acc

/-- One tick of the periodic status refresh (App.tsx lines 126 to 145).
`outcomes` gives the remote result of the classification call for each agent
id this tick; the second component logs, in iteration order, one entry per
Status Classifier invocation: the agent id and the output text passed. -/
def refreshTick (parseDet : Str → Option DetectionResult)
    (outcomes : Str → RemoteOutcome) (s : Store) : Store × List (Str × Str) :=
  s.agents.foldl (refreshStep parseDet outcomes) (s, [])

/-! ## Name generator (src/agent-name.ts). -/

/-- The fixed stop word set, ported verbatim. -/
def STOP_WORDS : List Str :=
  [ "a".toList, "an".toList, "the".toList, "is".toList, "are".toList,
    "was".toList, "were".toList, "be".toList, "been".toList, "being".toList,
    "have".toList, "has".toList, "had".toList, "do".toList, "does".toList,
    "did".toList, "will".toList, "would".toList, "could".toList,
    "should".toList, "may".toList, "might".toList, "must".toList,
    "shall".toList, "can".toList, "need".toList, "dare".toList,
    "to".toList, "of".toList, "in".toList, "for".toList, "on".toList,
    "with".toList, "at".toList, "by".toList, "from".toList, "as".toList,
    "into".toList, "through".toList, "during".toList, "before".toList,
    "after".toList, "above".toList, "below".toList,
    "between".toList, "under".toList, "again".toList, "further".toList,
    "then".toList, "once".toList, "here".toList,
    "there".toList, "when".toList, "where".toList, "why".toList,
    "how".toList, "all".toList, "each".toList, "few".toList,
    "more".toList, "most".toList, "other".toList, "some".toList,
    "such".toList, "no".toList, "nor".toList, "not".toList,
    "only".toList, "own".toList, "same".toList, "so".toList,
    "than".toList, "too".toList, "very".toList, "just".toList,
    "and".toList, "but".toList, "if".toList, "or".toList,
    "because".toList, "until".toList, "while".toList, "although".toList,
    "this".toList, "that".toList, "these".toList, "those".toList,
    "it".toList, "its".toList, "my".toList, "your".toList, "our".toList,
    "their".toList, "his".toList, "her".toList, "me".toList, "you".toList,
    "us".toList, "them".toList, "him".toList,
    "please".toList, "hey".toList, "hi".toList, "hello".toList,
    "thanks".toList, "ok".toList, "okay".toList,
    "want".toList, "like".toList, "get".toList, "make".toList,
    "put".toList, "go".toList, "going".toList ]

def MAX_NAME_LENGTH : Nat := 20

def WORDS_TO_EXTRACT : Nat := 3

/-- ASCII lowercasing, as `toLowerCase` acts on the inputs exercised here. -/
def jsToLower (c : Char) : Char := c.toLower

/-- One character of `replace(/[^a-z0-9\s-]/g, ' ')` after lowercasing. -/
def normalizeChar (c : Char) : Char :=
  if ('a' ≤ c ∧ c ≤ 'z') ∨ ('0' ≤ c ∧ c ≤ '9') ∨ isJsWhitespace c ∨ c = '-'
  then c else ' '

/-- extractMeaningfulWords from src/agent-name.ts: lowercase, replace
non-allowed characters with spaces, trim, split on whitespace runs, keep
words longer than one character that are not stop words.  (On a trimmed
string, `split(/\s+/)` produces no empty tokens except for the empty string
itself, whose single empty token the length filter removes, so `splitWs`
composed with the length filter is an exact model.) -/
def extractMeaningfulWords (prompt : Str) : List Str :=
  let normalized := jsTrim ((prompt.map jsToLower).map normalizeChar)
  (splitWs normalized).filter (fun w => w.length > 1 ∧ w ∉ STOP_WORDS)

/-- The truncation block of generateAgentName: cut the joined name to 20
characters when longer, then back up to the last hyphen when
`baseName.length - lastHyphen < 3` (with `lastHyphen > 0`). -/
def srcTruncate (baseName : Str) : Str :=
  if baseName.length > MAX_NAME_LENGTH then
    let b := baseName.take MAX_NAME_LENGTH
    let lastHyphen := lastIndexOf '-' b
    if lastHyphen > 0 ∧ (b.length : Int) - lastHyphen < 3
    then b.take lastHyphen.toNat else b
  else baseName

/-- The body of generateAgentName before the uniqueness check: first three
meaningful words (fallback word `agent`), joined with hyphens, truncated via
`srcTruncate`. -/
def baseNameOf (taskPrompt : Str) : Str :=
  let words := extractMeaningfulWords taskPrompt
  let nameWords := words.take WORDS_TO_EXTRACT
  let nameWords := if nameWords.length = 0 then ["agent".toList] else nameWords
  srcTruncate (List.intercalate ['-'] nameWords)

/-- generateAgentName from src/agent-name.ts.  The session set of used names
is threaded explicitly (the source keeps it in a module variable), and the
three-character random suffix produced by `generateSuffix` (a slice of
`Math.random().toString(36)`) is supplied by the caller as `sfx`.  Returns
the final name and the updated used set. -/
def generateAgentName (sfx : Str) (taskPrompt : Str) (usedNames : List Str) :
    Str × List Str :=
  let baseName := baseNameOf taskPrompt
  let finalName := if baseName ∈ usedNames then baseName ++ '-' :: sfx else baseName
  (finalName, finalName :: usedNames)

/-- resetUsedNames: clear the session set. -/
def resetUsedNames : List Str := []

/-! ## Helper lemmas. -/

theorem sliceLast_reverse (n : Nat) (s : Str) :
    sliceLast n s = (s.reverse.take n).reverse := by
  simp [sliceLast, List.take_reverse]

theorem sliceLast_of_le {n : Nat} {s : Str} (h : s.length ≤ n) :
    sliceLast n s = s := by
  simp [sliceLast, Nat.sub_eq_zero_of_le h]

theorem sliceLast_nil (n : Nat) : sliceLast n [] = [] := by
  simp [sliceLast]

theorem reverse_sliceLast (n : Nat) (s : Str) :
    (sliceLast n s).reverse = s.reverse.take n := by
  rw [sliceLast_reverse, List.reverse_reverse]

theorem sliceLast_idem_append (n : Nat) (a b : Str) :
    sliceLast n (sliceLast n a ++ b) = sliceLast n (a ++ b) := by
  apply List.reverse_injective
  rw [reverse_sliceLast, reverse_sliceLast, List.reverse_append,
    List.reverse_append, reverse_sliceLast,
    List.take_append_eq_append_take, List.take_append_eq_append_take,
    List.take_take, Nat.min_eq_left (Nat.sub_le n b.reverse.length)]

theorem length_sliceLast (n : Nat) (s : Str) :
    (sliceLast n s).length = min n s.length := by
  simp [sliceLast, List.length_drop]
  omega

theorem mapGet_mapAdjust_self (k : Str) (f : Agent → Agent) (m : List (Str × Agent)) :
    mapGet k (mapAdjust k f m) = (mapGet k m).map f := by
  induction m with
  | nil => rfl
  | cons p rest ih =>
    by_cases h : p.1 = k
    · simp [mapAdjust, mapGet, h]
    · simp [mapAdjust, mapGet, h, ih]

theorem mapAdjust_of_get_none {k : Str} {f : Agent → Agent} {m : List (Str × Agent)}
    (h : mapGet k m = none) : mapAdjust k f m = m := by
  induction m with
  | nil => rfl
  | cons p rest ih =>
    by_cases hp : p.1 = k
    · simp [mapGet, hp] at h
    · simp [mapGet, hp] at h
      simp [mapAdjust, hp, ih h]

theorem mapGet_mapSet_self (k : Str) (v : Agent) (m : List (Str × Agent)) :
    mapGet k (mapSet k v m) = some v := by
  induction m with
  | nil => simp [mapSet, mapGet]
  | cons p rest ih =>
    by_cases h : p.1 = k
    · simp [mapSet, mapGet, h]
    · simp [mapSet, mapGet, h, ih]

theorem mapGet_mapSet_other {k k2 : Str} (hne : k2 ≠ k) (v : Agent) (m : List (Str × Agent)) :
    mapGet k2 (mapSet k v m) = mapGet k2 m := by
  induction m with
  | nil => simp [mapSet, mapGet, Ne.symm hne]
  | cons p rest ih =>
    by_cases h : p.1 = k
    · simp [mapSet, mapGet, h, Ne.symm hne]
    · simp [mapSet, mapGet, h, ih]

theorem mapDelete_of_get_none {k : Str} {m : List (Str × Agent)}
    (h : mapGet k m = none) : mapDelete k m = m := by
  induction m with
  | nil => rfl
  | cons p rest ih =>
    by_cases hp : p.1 = k
    · simp [mapGet, hp] at h
    · simp [mapGet, hp] at h
      simp [mapDelete, hp, ih h]

theorem mapAdjust_mem {k : Str} {f : Agent → Agent} {m : List (Str × Agent)} {p : Str × Agent}
    (h : p ∈ mapAdjust k f m) : p ∈ m ∨ ∃ q ∈ m, p = (q.1, f q.2) := by
  induction m with
  | nil => simp [mapAdjust] at h
  | cons q rest ih =>
    by_cases hq : q.1 = k
    · simp only [mapAdjust, if_pos hq] at h
      rcases List.mem_cons.mp h with h | h
      · right; exact ⟨q, List.mem_cons_self _ _, h⟩
      · left; exact List.mem_cons_of_mem _ h
    · simp only [mapAdjust, if_neg hq] at h
      rcases List.mem_cons.mp h with h | h
      · left; exact h ▸ List.mem_cons_self _ _
      · rcases ih h with h2 | ⟨r, hr, he⟩
        · left; exact List.mem_cons_of_mem _ h2
        · right; exact ⟨r, List.mem_cons_of_mem _ hr, he⟩

/-! ## Claim C1: bounded output buffering. -/

/-- Apply a sequence of appendAgentOutput calls for one agent id. -/
def appendChunks (id : Str) (cs : List Str) (s : Store) : Store :=
  cs.foldl (fun st c => appendAgentOutput id c st) s

/-- The output buffer of the agent stored under `id` (empty if absent). -/
def bufferOf (s : Store) (id : Str) : Str :=
  match mapGet id s.agents with
  | some a => a.outputBuffer
  | none => []

/-- The `status.lastOutput` of the agent stored under `id` (empty if absent). -/
def lastOutputOf (s : Store) (id : Str) : Str :=
  match mapGet id s.agents with
  | some a => a.status.lastOutput
  | none => []

theorem truncBuf_eq (buf : Str) :
    truncBuf buf = sliceLast MAX_OUTPUT_BUFFER_LENGTH buf := by
  unfold truncBuf
  split
  · rfl
  · rw [sliceLast_of_le]
    omega

theorem appendChunks_spec :
    ∀ (cs : List Str) (s : Store) (id : Str) (a : Agent) (pre : Str),
      mapGet id s.agents = some a →
      a.outputBuffer = sliceLast MAX_OUTPUT_BUFFER_LENGTH pre →
      a.status.lastOutput = sliceLast MAX_LAST_OUTPUT_LENGTH a.outputBuffer →
      ∃ a2 : Agent, mapGet id (appendChunks id cs s).agents = some a2 ∧
        a2.outputBuffer = sliceLast MAX_OUTPUT_BUFFER_LENGTH (pre ++ cs.flatten) ∧
        a2.status.lastOutput = sliceLast MAX_LAST_OUTPUT_LENGTH a2.outputBuffer := by
  intro cs
  induction cs with
  | nil =>
    intro s id a pre h hb hl
    exact ⟨a, h, by simpa [appendChunks] using hb, hl⟩
  | cons c cs ih =>
    intro s id a pre h hb hl
    have hstep : mapGet id (appendAgentOutput id c s).agents = some (appendUpd c a) := by
      show mapGet id (mapAdjust id _ s.agents) = _
      rw [mapGet_mapAdjust_self, h]
      rfl
    have hbuf : (appendUpd c a).outputBuffer
        = sliceLast MAX_OUTPUT_BUFFER_LENGTH (a.outputBuffer ++ c) := by
      simp only [appendUpd, truncBuf_eq]
    have hlast : (appendUpd c a).status.lastOutput
        = sliceLast MAX_LAST_OUTPUT_LENGTH ((appendUpd c a).outputBuffer) := by
      simp only [appendUpd]
    have hb2 : (appendUpd c a).outputBuffer
        = sliceLast MAX_OUTPUT_BUFFER_LENGTH (pre ++ c) := by
      rw [hbuf, hb, sliceLast_idem_append]
    have happ : appendChunks id (c :: cs) s = appendChunks id cs (appendAgentOutput id c s) := rfl
    rw [happ]
    obtain ⟨a2, h2, hb3, hl3⟩ := ih (appendAgentOutput id c s) id _ (pre ++ c) hstep hb2 hlast
    refine ⟨a2, h2, ?_, hl3⟩
    rw [hb3, List.flatten_cons, ← List.append_assoc]

/-- A throwaway concrete config used to instantiate universally quantified
theorems at concrete inputs. -/
def exampleConfig : AgentConfig :=
  { id := "ex".toList, kind := .claudeCode, workingDirectory := [], task := [] }

/-- C1: for every agent and every sequence of appendOutput calls since its
creation, after each call the output buffer equals the last 2000 characters
of the concatenation of all chunks appended so far (so its length never
exceeds 2000 and truncation drops only the oldest front content), and
status.lastOutput equals the last 500 characters of the current buffer; in
particular appending 1500 A-characters then 1000 B-characters leaves exactly
1000 As followed by 1000 Bs. -/
theorem C1_appendOutput_buffer_tail :
    (∀ (s0 : Store) (cfg : AgentConfig) (hd : Nat) (cs : List Str),
      bufferOf (appendChunks cfg.id cs (addAgent cfg hd s0).1) cfg.id
          = sliceLast 2000 cs.flatten
        ∧ lastOutputOf (appendChunks cfg.id cs (addAgent cfg hd s0).1) cfg.id
          = sliceLast 500 (bufferOf (appendChunks cfg.id cs (addAgent cfg hd s0).1) cfg.id)
        ∧ (bufferOf (appendChunks cfg.id cs (addAgent cfg hd s0).1) cfg.id).length ≤ 2000)
    ∧ bufferOf (appendChunks exampleConfig.id
          [List.replicate 1500 'A', List.replicate 1000 'B']
          (addAgent exampleConfig 0 createEmptyStore).1) exampleConfig.id
        = List.replicate 1000 'A' ++ List.replicate 1000 'B' := by
  have main : ∀ (s0 : Store) (cfg : AgentConfig) (hd : Nat) (cs : List Str),
      bufferOf (appendChunks cfg.id cs (addAgent cfg hd s0).1) cfg.id
          = sliceLast 2000 cs.flatten
        ∧ lastOutputOf (appendChunks cfg.id cs (addAgent cfg hd s0).1) cfg.id
          = sliceLast 500 (bufferOf (appendChunks cfg.id cs (addAgent cfg hd s0).1) cfg.id)
        ∧ (bufferOf (appendChunks cfg.id cs (addAgent cfg hd s0).1) cfg.id).length ≤ 2000 := by
    intro s0 cfg hd cs
    have hadd : mapGet cfg.id (addAgent cfg hd s0).1.agents
        = some { config := cfg, handle := hd,
                 status := { id := cfg.id, state := .starting, summary := [], lastOutput := [] },
                 outputBuffer := [] } := by
      show mapGet cfg.id (mapSet cfg.id _ s0.agents) = _
      exact mapGet_mapSet_self _ _ _
    obtain ⟨a2, h2, hb, hl⟩ := appendChunks_spec cs _ cfg.id _ [] hadd
      (by simp [sliceLast_nil]) (by simp [sliceLast_nil])
    have hbuf : bufferOf (appendChunks cfg.id cs (addAgent cfg hd s0).1) cfg.id
        = sliceLast 2000 cs.flatten := by
      simp only [bufferOf, h2]
      rw [hb]
      simp [MAX_OUTPUT_BUFFER_LENGTH]
    refine ⟨hbuf, ?_, ?_⟩
    · simp only [lastOutputOf, bufferOf, h2]
      rw [hl]
      simp [MAX_LAST_OUTPUT_LENGTH]
    · rw [hbuf, length_sliceLast]
      omega
  refine ⟨main, ?_⟩
  have h := (main createEmptyStore exampleConfig 0
    [List.replicate 1500 'A', List.replicate 1000 'B']).1
  rw [h]
  have hf : ([List.replicate 1500 'A', List.replicate 1000 'B'] : List Str).flatten
      = List.replicate 1500 'A' ++ List.replicate 1000 'B' := by
    rw [List.flatten_cons, List.flatten_cons, List.flatten_nil, List.append_nil]
  rw [hf]
  show List.drop ((List.replicate 1500 'A' ++ List.replicate 1000 'B').length - 2000) _ = _
  rw [List.length_append, List.length_replicate, List.length_replicate]
  norm_num
  rw [List.drop_append_eq_append_drop, List.drop_replicate, List.length_replicate]
  norm_num

/-! ## Claim C2: gating of the Status Classifier in the periodic refresh. -/

/-- Eligibility predicate under which the periodic refresh invokes the
Status Classifier for an agents-map entry. -/
def eligibleForRefresh (p : Str × Agent) : Bool :=
  decide ((p.2.status.state = AgState.working ∨ p.2.status.state = AgState.starting)
    ∧ p.2.outputBuffer ≠ [])

theorem refreshTick_log_aux (parseDet : Str → Option DetectionResult)
    (outcomes : Str → RemoteOutcome) :
    ∀ (l : List (Str × Agent)) (st : Store) (log : List (Str × Str)),
      (l.foldl (refreshStep parseDet outcomes) (st, log)).2
        = log ++ (l.filter eligibleForRefresh).map (fun p => (p.1, p.2.outputBuffer)) := by
  intro l
  induction l with
  | nil => intro st log; simp
  | cons p l ih =>
    intro st log
    by_cases h1 : p.2.status.state = AgState.working ∨ p.2.status.state = AgState.starting
    · by_cases h2 : p.2.outputBuffer = []
      · have hstep : refreshStep parseDet outcomes (st, log) p = (st, log) := by
          simp [refreshStep, h1, h2]
        have hel : eligibleForRefresh p = false := by
          simp [eligibleForRefresh, h2]
        simp only [List.foldl_cons, hstep, List.filter_cons, hel]
        exact ih st log
      · have hstep : refreshStep parseDet outcomes (st, log) p
            = (updateAgentStatus p.1
                (detectStatus parseDet p.1 p.2.outputBuffer (outcomes p.1)).2 st,
               log ++ [(p.1, p.2.outputBuffer)]) := by
          simp [refreshStep, h1, h2]
        have hel : eligibleForRefresh p = true := by
          simp [eligibleForRefresh, h1, h2]
        simp only [List.foldl_cons, hstep, List.filter_cons, hel, if_true]
        rw [ih]
        simp
    · have hstep : refreshStep parseDet outcomes (st, log) p = (st, log) := by
        simp [refreshStep, h1]
      have hel : eligibleForRefresh p = false := by
        simp only [eligibleForRefresh, decide_eq_false_iff_not]
        exact fun hc => h1 hc.1
      simp only [List.foldl_cons, hstep, List.filter_cons, hel]
      exact ih st log

/-- A two-agent store: one working agent with an empty buffer, one working
agent with buffer content, both otherwise fresh. -/
def twoAgentStore : Store :=
  { agents :=
      [ ("a1".toList,
          { config := { id := "a1".toList, kind := .claudeCode, workingDirectory := [], task := [] }
            handle := 1
            status := { id := "a1".toList, state := .working, summary := [], lastOutput := [] }
            outputBuffer := [] }),
        ("a2".toList,
          { config := { id := "a2".toList, kind := .claudeCode, workingDirectory := [], task := [] }
            handle := 2
            status := { id := "a2".toList, state := .working, summary := [], lastOutput := [] }
            outputBuffer := "out".toList }) ]
    focusedAgentId := none
    orchestratorInput := [] }

/-- C2: on a refresh tick the Status Classifier is invoked exactly for the
agents whose state is working or starting and whose buffer is nonempty, in
map order, each invocation receiving the full current buffer content; in the
two-agent store with one empty and one nonempty buffer it is invoked exactly
once, for the nonempty one, with that buffer. -/
theorem C2_refreshTick_invocations :
    (∀ (parseDet : Str → Option DetectionResult) (outcomes : Str → RemoteOutcome) (s : Store),
      (refreshTick parseDet outcomes s).2
        = (s.agents.filter eligibleForRefresh).map (fun p => (p.1, p.2.outputBuffer)))
    ∧ (refreshTick (fun _ => none) (fun _ => .throws) twoAgentStore).2
        = [("a2".toList, "out".toList)] := by
  constructor
  · intro parseDet outcomes s
    have h := refreshTick_log_aux parseDet outcomes s.agents s []
    simpa [refreshTick] using h
  · decide

/-! ## Claim C3: Status Classifier truncation and graceful degradation. -/

/-- C3: detectStatus embeds exactly the last 500 characters of its input in
the prompt sent to the model; on a thrown remote call, a non-text first
content block, a response text without a brace span, or a parse failure it
returns (never throws) exactly the fallback working/Processing patch with
lastOutput the truncated input; and on every path, success included, the
returned lastOutput is the truncated input. -/
theorem C3_detectStatus_fallback (parseDet : Str → Option DetectionResult)
    (aid out : Str) (oc : RemoteOutcome) :
    (detectStatus parseDet aid out oc).1 = sliceLast 500 out
    ∧ ((detectStatus parseDet aid out oc).2).lastOutput = some (sliceLast 500 out)
    ∧ (oc = .throws →
        (detectStatus parseDet aid out oc).2 = fallbackPatch (sliceLast 500 out))
    ∧ (∀ r, oc = .returns r → r.content.head? = some .toolUse →
        (detectStatus parseDet aid out oc).2 = fallbackPatch (sliceLast 500 out))
    ∧ (∀ r t, oc = .returns r → r.content.head? = some (.text t) →
        extractJsonSpan t = none →
        (detectStatus parseDet aid out oc).2 = fallbackPatch (sliceLast 500 out))
    ∧ (∀ r t span, oc = .returns r → r.content.head? = some (.text t) →
        extractJsonSpan t = some span → parseDet span = none →
        (detectStatus parseDet aid out oc).2 = fallbackPatch (sliceLast 500 out)) := by
  refine ⟨rfl, ?_, ?_, ?_, ?_, ?_⟩
  · rcases oc with _ | r
    · rfl
    · rcases r with ⟨content⟩
      rcases content with _ | ⟨b, rest⟩
      · rfl
      · rcases b with t | _
        · simp only [detectStatus]
          rcases h1 : extractJsonSpan t with _ | span
          · rfl
          · rcases h2 : parseDet span with _ | d
            · simp [h2, fallbackPatch]
            · simp [h2]
        · rfl
  · intro h; subst h; rfl
  · intro r h hb; subst h
    rcases r with ⟨content⟩
    rcases content with _ | ⟨b, rest⟩
    · simp at hb
    · simp only [List.head?_cons, Option.some_inj] at hb
      subst hb
      simp only [detectStatus]
      rcases h1 : extractJsonSpan ([] : Str) with _ | span
      · rfl
      · simp [extractJsonSpan, firstIdxOf, List.findIdx?] at h1
  · intro r t h hb hspan; subst h
    rcases r with ⟨content⟩
    rcases content with _ | ⟨b, rest⟩
    · simp at hb
    · simp only [List.head?_cons, Option.some_inj] at hb
      subst hb
      simp only [detectStatus, hspan]
  · intro r t span h hb hspan hp; subst h
    rcases r with ⟨content⟩
    rcases content with _ | ⟨b, rest⟩
    · simp at hb
    · simp only [List.head?_cons, Option.some_inj] at hb
      subst hb
      simp only [detectStatus, hspan, hp]

/-- Witness for C3 at concrete inputs: the implications are discharged for a
throwing call, a tool-use block, brace-free text, and an unparseable span. -/
theorem C3_detectStatus_fallback_witness :
    (detectStatus (fun _ => none) "a".toList "abc".toList .throws).2
        = fallbackPatch (sliceLast 500 "abc".toList)
    ∧ (detectStatus (fun _ => none) "a".toList "abc".toList
        (.returns ⟨[.toolUse]⟩)).2 = fallbackPatch (sliceLast 500 "abc".toList)
    ∧ (detectStatus (fun _ => none) "a".toList "abc".toList
        (.returns ⟨[.text "no json".toList]⟩)).2 = fallbackPatch (sliceLast 500 "abc".toList)
    ∧ (detectStatus (fun _ => none) "a".toList "abc".toList
        (.returns ⟨[.text ['\x7b', '\x7d']]⟩)).2 = fallbackPatch (sliceLast 500 "abc".toList) :=
  ⟨(C3_detectStatus_fallback (fun _ => none) "a".toList "abc".toList .throws).2.2.1 rfl,
   (C3_detectStatus_fallback (fun _ => none) "a".toList "abc".toList
      (.returns ⟨[.toolUse]⟩)).2.2.2.1 ⟨[.toolUse]⟩ rfl (by decide),
   (C3_detectStatus_fallback (fun _ => none) "a".toList "abc".toList
      (.returns ⟨[.text "no json".toList]⟩)).2.2.2.2.1 ⟨[.text "no json".toList]⟩
      "no json".toList rfl (by decide) (by decide),
   (C3_detectStatus_fallback (fun _ => none) "a".toList "abc".toList
      (.returns ⟨[.text ['\x7b', '\x7d']]⟩)).2.2.2.2.2 ⟨[.text ['\x7b', '\x7d']]⟩
      ['\x7b', '\x7d'] ['\x7b', '\x7d'] rfl (by decide) (by decide) rfl⟩

/-! ## Claim C4: Input Classifier blank-input short-circuit and fallback. -/

/-- C4: cleanInput on input that is blank after trimming returns zero tasks
and the fixed clarification string for every remote outcome (so the result
never depends on the remote call, which is the blank-input short-circuit);
for nonblank input a thrown remote call yields exactly one task carrying the
raw input verbatim with no tools and no clarification, and a response text
that fails to parse yields the identical value. -/
theorem C4_cleanInput_errors (parseClean : Str → Option CleanedInput)
    (raw : Str) (oc : RemoteOutcome) :
    (jsTrim raw = [] →
      cleanInput parseClean raw oc
        = { tasks := [],
            clarificationNeeded := some "Please provide a task description.".toList })
    ∧ (jsTrim raw ≠ [] → oc = .throws →
      cleanInput parseClean raw oc
        = { tasks := [{ prompt := raw, suggestedTools := none }],
            clarificationNeeded := none })
    ∧ (∀ r t, jsTrim raw ≠ [] → oc = .returns r →
        r.content.head? = some (.text t) → parseClean t = none →
      cleanInput parseClean raw oc
        = { tasks := [{ prompt := raw, suggestedTools := none }],
            clarificationNeeded := none }) := by
  refine ⟨?_, ?_, ?_⟩
  · intro h
    simp [cleanInput, h]
  · intro h hoc
    subst hoc
    simp [cleanInput, h]
  · intro r t h hoc hb hp
    subst hoc
    rcases r with ⟨content⟩
    rcases content with _ | ⟨b, rest⟩
    · simp at hb
    · simp only [List.head?_cons, Option.some_inj] at hb
      subst hb
      simp [cleanInput, h, hp]

/-- Witness for C4 at concrete inputs: whitespace-only input, a thrown call
on nonblank input, and a non-JSON response text on nonblank input. -/
theorem C4_cleanInput_errors_witness :
    cleanInput (fun _ => none) "   ".toList .throws
        = { tasks := [],
            clarificationNeeded := some "Please provide a task description.".toList }
    ∧ cleanInput (fun _ => none) "do something".toList .throws
        = { tasks := [{ prompt := "do something".toList, suggestedTools := none }],
            clarificationNeeded := none }
    ∧ cleanInput (fun _ => none) "do something else".toList
        (.returns ⟨[.text "This is not valid JSON".toList]⟩)
        = { tasks := [{ prompt := "do something else".toList, suggestedTools := none }],
            clarificationNeeded := none } :=
  ⟨(C4_cleanInput_errors (fun _ => none) "   ".toList .throws).1 (by decide),
   (C4_cleanInput_errors (fun _ => none) "do something".toList .throws).2.1 (by decide) rfl,
   (C4_cleanInput_errors (fun _ => none) "do something else".toList
      (.returns ⟨[.text "This is not valid JSON".toList]⟩)).2.2
      ⟨[.text "This is not valid JSON".toList]⟩ "This is not valid JSON".toList
      (by decide) rfl (by decide) rfl⟩

/-! ## Claim C5: whether cleanInput brace-scans the response text. -/

/-- A response text wrapping a JSON object in prose. -/
def proseJson : Str := "json: \x7b\"tasks\":[]\x7d".toList

/-- The bare JSON object embedded in `proseJson`. -/
def jsonOnly : Str := "\x7b\"tasks\":[]\x7d".toList

/-- A `JSON.parse` oracle agreeing with real JSON.parse on the two texts at
issue: it succeeds on the bare object and throws on the prose-wrapped text
(real JSON.parse rejects any text with leading prose). -/
def strictParse : Str → Option CleanedInput :=
  fun s => if s = jsonOnly then some { tasks := [], clarificationNeeded := none } else none

/-- Counterexample to C5: on a nonblank input whose model response wraps a
JSON object in prose, the brace span exists and parses (so the claimed
brace-scanning extraction would return its zero tasks), yet cleanInput
returns the failure fallback carrying the raw input as one task — cleanInput
performs no brace-scanning extraction. -/
theorem C5_counterexample_strict_parse :
    extractJsonSpan proseJson = some jsonOnly
    ∧ strictParse jsonOnly = some { tasks := [], clarificationNeeded := none }
    ∧ cleanInput strictParse "do x".toList (.returns ⟨[.text proseJson]⟩)
        = { tasks := [{ prompt := "do x".toList, suggestedTools := none }],
            clarificationNeeded := none }
    ∧ ({ tasks := [{ prompt := "do x".toList, suggestedTools := none }],
         clarificationNeeded := none } : CleanedInput)
        ≠ { tasks := [], clarificationNeeded := none } := by
  refine ⟨by decide, by decide, by decide, by decide⟩

/-- C5 amended: cleanInput does not apply the Status Classifier
brace-scanning extraction; it hands the entire response text to JSON.parse,
returning the parsed tasks and clarification only when the whole text parses
and the raw-input fallback otherwise, so JSON wrapped in surrounding prose
takes the fallback path. -/
theorem C5_amended_cleanInput_whole_text (parseClean : Str → Option CleanedInput)
    (raw t : Str) (r : ApiResponse) :
    jsTrim raw ≠ [] → r.content.head? = some (.text t) →
    (∀ c, parseClean t = some c → cleanInput parseClean raw (.returns r) = c)
    ∧ (parseClean t = none →
        cleanInput parseClean raw (.returns r)
          = { tasks := [{ prompt := raw, suggestedTools := none }],
              clarificationNeeded := none }) := by
  intro h hb
  rcases r with ⟨content⟩
  rcases content with _ | ⟨b, rest⟩
  · simp at hb
  · simp only [List.head?_cons, Option.some_inj] at hb
    subst hb
    constructor
    · intro c hp
      simp [cleanInput, h, hp]
    · intro hp
      simp [cleanInput, h, hp]

/-- Witness for C5 amended at concrete inputs: a whole-text parse success is
returned, and a prose-wrapped text falls back to the raw-input task. -/
theorem C5_amended_cleanInput_whole_text_witness :
    cleanInput strictParse "do x".toList (.returns ⟨[.text jsonOnly]⟩)
        = { tasks := [], clarificationNeeded := none }
    ∧ cleanInput strictParse "do x".toList (.returns ⟨[.text proseJson]⟩)
        = { tasks := [{ prompt := "do x".toList, suggestedTools := none }],
            clarificationNeeded := none } :=
  ⟨(C5_amended_cleanInput_whole_text strictParse "do x".toList jsonOnly
      ⟨[.text jsonOnly]⟩ (by decide) rfl).1
      { tasks := [], clarificationNeeded := none } (by decide),
   (C5_amended_cleanInput_whole_text strictParse "do x".toList proseJson
      ⟨[.text proseJson]⟩ (by decide) rfl).2 (by decide)⟩

/-! ## Claim C6: unknown-id operations are silent no-ops. -/

/-- C6: for an id absent from the agents map, updateAgentStatus,
appendAgentOutput and removeAgent leave the entire store unchanged (all are
total functions, so none can throw), and removeAgent invokes no kill. -/
theorem C6_unknown_id_noop (s : Store) (id : Str) (patch : StatusPatch)
    (chunk : Str) (h : mapGet id s.agents = none) :
    updateAgentStatus id patch s = s
    ∧ appendAgentOutput id chunk s = s
    ∧ removeAgent id s = (s, []) := by
  refine ⟨?_, ?_, ?_⟩
  · simp [updateAgentStatus, mapAdjust_of_get_none h]
  · simp [appendAgentOutput, mapAdjust_of_get_none h]
  · simp [removeAgent, h]

/-- Witness for C6 on the empty store and an arbitrary id. -/
theorem C6_unknown_id_noop_witness :
    updateAgentStatus "x".toList {} createEmptyStore = createEmptyStore
    ∧ appendAgentOutput "x".toList "hi".toList createEmptyStore = createEmptyStore
    ∧ removeAgent "x".toList createEmptyStore = (createEmptyStore, []) :=
  C6_unknown_id_noop createEmptyStore "x".toList {} "hi".toList (by decide)

/-! ## Claim C9: status.id is never overwritten. -/

/-- The id invariant of the store: every key of the agents map equals the
config id of its agent, which equals its status id. -/
def idInvariant (s : Store) : Prop :=
  ∀ p ∈ s.agents, p.1 = p.2.config.id ∧ p.2.status.id = p.2.config.id

/-- C9: every partial status the program passes to updateStatus carries no
id field — detectStatus returns id-free patches on every path and the exit
callback patch is id-free — and merging any id-free patch preserves the
invariant that each agent keeps status.id equal to config.id and that every
map key equals its agent status id. -/
theorem C9_status_id_immutable :
    (∀ (parseDet : Str → Option DetectionResult) (aid out : Str) (oc : RemoteOutcome),
      ((detectStatus parseDet aid out oc).2).id = none)
    ∧ exitPatch.id = none
    ∧ (∀ (s : Store) (id : Str) (patch : StatusPatch), patch.id = none →
        idInvariant s → idInvariant (updateAgentStatus id patch s)) := by
  refine ⟨?_, rfl, ?_⟩
  · intro parseDet aid out oc
    rcases oc with _ | r
    · rfl
    · rcases r with ⟨content⟩
      rcases content with _ | ⟨b, rest⟩
      · rfl
      · rcases b with t | _
        · simp only [detectStatus]
          rcases h1 : extractJsonSpan t with _ | span
          · rfl
          · rcases h2 : parseDet span with _ | d
            · simp [h2, fallbackPatch]
            · simp [h2]
        · rfl
  · intro s id patch hid hinv p hp
    rcases mapAdjust_mem hp with hmem | ⟨q, hq, he⟩
    · exact hinv p hmem
    · obtain ⟨h1, h2⟩ := hinv q hq
      subst he
      exact ⟨h1, by simp [mergeStatus, hid, h2]⟩

/-- Witness for C9: the id invariant holds of the two-agent store and is
preserved when the exit patch is merged onto one of its agents. -/
theorem C9_status_id_immutable_witness :
    idInvariant twoAgentStore
    ∧ idInvariant (updateAgentStatus "a1".toList exitPatch twoAgentStore) :=
  ⟨by unfold idInvariant; decide,
   C9_status_id_immutable.2.2 twoAgentStore "a1".toList exitPatch rfl
     (by unfold idInvariant; decide)⟩

/-! ## Claim C10: addAgent on a duplicate id silently overwrites. -/

/-- C10: addAgent never invokes any kill capability, stores a rebuilt agent
under the config id — new config and handle, state starting, empty summary,
lastOutput and outputBuffer — and leaves every other key and the focus
pointer unchanged; so on a duplicate id the existing entry is silently
replaced and the previously stored handle is dropped without being killed. -/
theorem C10_addAgent_overwrite (s : Store) (cfg : AgentConfig) (hd : Nat) :
    (addAgent cfg hd s).2 = []
    ∧ mapGet cfg.id (addAgent cfg hd s).1.agents
        = some { config := cfg, handle := hd,
                 status := { id := cfg.id, state := .starting, summary := [], lastOutput := [] },
                 outputBuffer := [] }
    ∧ (∀ k, k ≠ cfg.id → mapGet k (addAgent cfg hd s).1.agents = mapGet k s.agents)
    ∧ (addAgent cfg hd s).1.focusedAgentId = s.focusedAgentId := by
  refine ⟨rfl, ?_, ?_, rfl⟩
  · exact mapGet_mapSet_self _ _ _
  · intro k hk
    exact mapGet_mapSet_other hk _ _

/-- A store already containing the example agent under an old handle. -/
def preexistingStore : Store := (addAgent exampleConfig 5 createEmptyStore).1

/-- Witness for C10: re-adding the example config with a new handle kills
nothing, rebuilds the stored agent with the new handle and a fresh starting
status, and leaves an unrelated key unchanged. -/
theorem C10_addAgent_overwrite_witness :
    (addAgent exampleConfig 7 preexistingStore).2 = []
    ∧ mapGet exampleConfig.id (addAgent exampleConfig 7 preexistingStore).1.agents
        = some { config := exampleConfig, handle := 7,
                 status := { id := exampleConfig.id, state := .starting,
                             summary := [], lastOutput := [] },
                 outputBuffer := [] }
    ∧ mapGet "y".toList (addAgent exampleConfig 7 preexistingStore).1.agents
        = mapGet "y".toList preexistingStore.agents :=
  ⟨(C10_addAgent_overwrite preexistingStore exampleConfig 7).1,
   (C10_addAgent_overwrite preexistingStore exampleConfig 7).2.1,
   (C10_addAgent_overwrite preexistingStore exampleConfig 7).2.2.1 "y".toList (by decide)⟩

/-! ## Claim C7: the base name transformation. -/

theorem splitWsAux_all_ws :
    ∀ (u : Str), (∀ c ∈ u, isJsWhitespace c) →
      ∀ acc, splitWsAux u acc = if acc = [] then [] else [acc.reverse] := by
  intro u
  induction u with
  | nil => intro _ acc; rfl
  | cons c rest ih =>
    intro hu acc
    have hc : isJsWhitespace c = true := hu c (List.mem_cons_self _ _)
    have hrest : ∀ d ∈ rest, isJsWhitespace d :=
      fun d hd => hu d (List.mem_cons_of_mem _ hd)
    by_cases ha : acc = []
    · simp only [splitWsAux, hc, if_true, ha, if_pos]
      rw [ih hrest []]
      simp [ha]
    · simp only [splitWsAux, hc, if_true, if_neg ha]
      rw [ih hrest []]
      simp [ha]

theorem splitWsAux_append_ws (u : Str) (hu : ∀ c ∈ u, isJsWhitespace c) :
    ∀ (s : Str) (acc : Str), splitWsAux (s ++ u) acc = splitWsAux s acc := by
  intro s
  induction s with
  | nil =>
    intro acc
    rw [List.nil_append, splitWsAux_all_ws u hu acc]
    rfl
  | cons c rest ih =>
    intro acc
    by_cases hc : isJsWhitespace c
    · by_cases ha : acc = []
      · simp only [List.cons_append, splitWsAux, hc, if_true, ha, if_pos]
        exact ih []
      · simp only [List.cons_append, splitWsAux, hc, if_true, if_neg ha]
        exact congrArg _ (ih [])
    · simp only [List.cons_append, splitWsAux, hc, if_false, Bool.false_eq_true]
      exact ih (c :: acc)

theorem splitWs_dropWhile_ws (s : Str) :
    splitWs (s.dropWhile isJsWhitespace) = splitWs s := by
  induction s with
  | nil => rfl
  | cons c rest ih =>
    by_cases hc : isJsWhitespace c
    · have h1 : (c :: rest).dropWhile isJsWhitespace = rest.dropWhile isJsWhitespace := by
        simp [List.dropWhile, hc]
      rw [h1, ih]
      show _ = splitWsAux (c :: rest) []
      simp only [splitWsAux, hc, if_true, if_pos rfl]
      rfl
    · have h1 : (c :: rest).dropWhile isJsWhitespace = c :: rest := by
        simp [List.dropWhile, hc]
      rw [h1]

theorem splitWs_jsTrim (s : Str) : splitWs (jsTrim s) = splitWs s := by
  have h1 : splitWs (s.dropWhile isJsWhitespace) = splitWs s := splitWs_dropWhile_ws s
  have hdec : s.dropWhile isJsWhitespace
      = jsTrim s ++ ((s.dropWhile isJsWhitespace).reverse.takeWhile isJsWhitespace).reverse := by
    unfold jsTrim
    have h2 := List.takeWhile_append_dropWhile
      (p := isJsWhitespace) (l := (s.dropWhile isJsWhitespace).reverse)
    calc s.dropWhile isJsWhitespace
        = (s.dropWhile isJsWhitespace).reverse.reverse := (List.reverse_reverse _).symm
      _ = ((s.dropWhile isJsWhitespace).reverse.takeWhile isJsWhitespace
            ++ (s.dropWhile isJsWhitespace).reverse.dropWhile isJsWhitespace).reverse := by rw [h2]
      _ = _ := by rw [List.reverse_append]
  have hws : ∀ c ∈ ((s.dropWhile isJsWhitespace).reverse.takeWhile isJsWhitespace).reverse,
      isJsWhitespace c := by
    intro c hc
    rw [List.mem_reverse] at hc
    exact List.mem_takeWhile_imp hc
  calc splitWs (jsTrim s)
      = splitWsAux (jsTrim s) [] := rfl
    _ = splitWsAux (jsTrim s
          ++ ((s.dropWhile isJsWhitespace).reverse.takeWhile isJsWhitespace).reverse) [] :=
        (splitWsAux_append_ws _ hws _ _).symm
    _ = splitWs (s.dropWhile isJsWhitespace) := by rw [← hdec]; rfl
    _ = splitWs s := h1

/-- The truncation rule in the words of the amended claim: when the joined
name exceeds 20 characters cut it to 20, and when the cut would leave a word
fragment of at most 1 character after the last hyphen (the hyphen within the
final 2 characters), back up to that hyphen instead. -/
def claimTruncate (b : Str) : Str :=
  if b.length > 20 then
    match lastIdxOf '-' (b.take 20) with
    | some i =>
        if 0 < i ∧ (b.take 20).length - i - 1 ≤ 1
        then (b.take 20).take i else b.take 20
    | none => b.take 20
  else b

theorem claimTruncate_eq_srcTruncate (b : Str) : claimTruncate b = srcTruncate b := by
  unfold claimTruncate srcTruncate lastIndexOf
  simp only [MAX_NAME_LENGTH]
  by_cases hlen : b.length > 20
  · simp only [if_pos hlen]
    rcases hfind : lastIdxOf '-' (b.take 20) with _ | i
    · simp
    · simp only []
      by_cases hcond : 0 < i ∧ (b.take 20).length - i - 1 ≤ 1
      · rw [if_pos hcond, if_pos (by omega)]
        simp
      · rw [if_neg hcond, if_neg (by omega)]
  · simp [if_neg hlen]

/-- The base transformation in the words of the amended claim: lowercase,
replace every character that is not a lowercase letter, digit, whitespace or
hyphen with a space, tokenize on whitespace runs, drop tokens of length at
most 1 and stop words, join the first 3 surviving tokens with hyphens (the
literal word agent if none survive), then truncate by `claimTruncate`. -/
def claimBaseName (p : Str) : Str :=
  let tokens := splitWs ((p.map jsToLower).map normalizeChar)
  let words := tokens.filter (fun w => w.length > 1 ∧ w ∉ STOP_WORDS)
  let first3 := words.take 3
  let nameWords := if first3 = [] then ["agent".toList] else first3
  claimTruncate (List.intercalate ['-'] nameWords)

theorem claimBaseName_eq_baseNameOf (p : Str) : claimBaseName p = baseNameOf p := by
  unfold claimBaseName baseNameOf extractMeaningfulWords
  simp only [splitWs_jsTrim, WORDS_TO_EXTRACT, List.length_eq_zero,
    claimTruncate_eq_srcTruncate]

/-- The truncation rule exactly as the original claim words it: back up to
the preceding hyphen when the cut would leave a 1-to-2-character word
fragment after it. -/
def claimedTruncate12 (b : Str) : Str :=
  if b.length > 20 then
    match lastIdxOf '-' (b.take 20) with
    | some i =>
        if 0 < i ∧ (1 ≤ (b.take 20).length - i - 1 ∧ (b.take 20).length - i - 1 ≤ 2)
        then (b.take 20).take i else b.take 20
    | none => b.take 20
  else b

/-- Counterexample to C7: on the three surviving words aaaaaaaaaa, bbbbbb,
ccdd the joined name is 22 characters; cutting at 20 leaves the 2-character
fragment cc, which the claimed rule (back up on a 1-to-2-character fragment)
drops, while the code keeps it — the two rules give different names. -/
theorem C7_counterexample_two_char_fragment :
    claimedTruncate12 (List.intercalate ['-']
        ((extractMeaningfulWords "aaaaaaaaaa bbbbbb ccdd".toList).take 3))
      = "aaaaaaaaaa-bbbbbb".toList
    ∧ baseNameOf "aaaaaaaaaa bbbbbb ccdd".toList = "aaaaaaaaaa-bbbbbb-cc".toList
    ∧ ("aaaaaaaaaa-bbbbbb".toList : Str) ≠ "aaaaaaaaaa-bbbbbb-cc".toList := by
  refine ⟨by decide, by decide, by decide⟩

/-- C7 amended: the base transformation is exactly lowercase, replace every
character that is not a lowercase letter, digit, whitespace or hyphen with a
space, tokenize on whitespace runs, drop tokens of length at most 1 and stop
words, join the first 3 survivors with hyphens (the literal agent if none),
and truncate to 20 characters backing up to the preceding hyphen only when
the cut would leave a fragment of at most 1 character (a 2-character
fragment is kept); the four quoted examples hold as stated. -/
theorem C7_amended_name_pipeline :
    (∀ p : Str, claimBaseName p = baseNameOf p)
    ∧ baseNameOf "Create README file".toList = "create-readme-file".toList
    ∧ baseNameOf "Please just make the button work".toList = "button-work".toList
    ∧ baseNameOf "".toList = "agent".toList
    ∧ baseNameOf "the a an to for".toList = "agent".toList :=
  ⟨claimBaseName_eq_baseNameOf, by decide, by decide, by decide, by decide⟩

/-! ## Claim C8: session uniqueness of generated names. -/

/-- Counterexample to C8: in one session (no reset), three calls on the task
test where the random suffix happens to repeat produce the same final name
twice — the generator checks only the base name against the used set, never
the suffixed name, so it can return a duplicate within a session. -/
theorem C8_counterexample_repeated_suffix :
    (generateAgentName "abc".toList "test".toList
        ((generateAgentName "abc".toList "test".toList
          ((generateAgentName "abc".toList "test".toList []).2)).2)).1
      = (generateAgentName "abc".toList "test".toList
          ((generateAgentName "abc".toList "test".toList []).2)).1
    ∧ (generateAgentName "abc".toList "test".toList
        ((generateAgentName "abc".toList "test".toList []).2)).1
      = "test-abc".toList := by
  refine ⟨by decide, by decide⟩

/-- C8 amended: when the computed base name is not yet used, the call
returns it and registers it; a second call with the same base name appends a
hyphen and the generated suffix before registering, so (for a 3-character
lowercase base-36 suffix) it returns basename-[a-z0-9]\x7b3\x7d, distinct
from the first name; and against the reset (empty) session set the bare base
name is returned again.  Uniqueness is only as good as the random suffix: a
repeated suffix repeats the name, as the counterexample shows. -/
theorem C8_amended_uniqueness (p sfx1 sfx2 : Str) (used : List Str)
    (hbase : baseNameOf p ∉ used)
    (hlen : sfx2.length = 3)
    (hchars : ∀ c ∈ sfx2, ('a' ≤ c ∧ c ≤ 'z') ∨ ('0' ≤ c ∧ c ≤ '9')) :
    (generateAgentName sfx1 p used).1 = baseNameOf p
    ∧ (generateAgentName sfx1 p used).2 = baseNameOf p :: used
    ∧ (generateAgentName sfx2 p (generateAgentName sfx1 p used).2).1
        = baseNameOf p ++ '-' :: sfx2
    ∧ (generateAgentName sfx2 p (generateAgentName sfx1 p used).2).1
        ≠ (generateAgentName sfx1 p used).1
    ∧ ((generateAgentName sfx2 p (generateAgentName sfx1 p used).2).1.drop
        ((baseNameOf p).length + 1)) = sfx2
    ∧ sfx2.length = 3
    ∧ (∀ c ∈ sfx2, ('a' ≤ c ∧ c ≤ 'z') ∨ ('0' ≤ c ∧ c ≤ '9'))
    ∧ (generateAgentName sfx2 p (generateAgentName sfx1 p used).2).2
        = (baseNameOf p ++ '-' :: sfx2) :: baseNameOf p :: used
    ∧ (generateAgentName sfx1 p resetUsedNames).1 = baseNameOf p := by
  have h1 : (generateAgentName sfx1 p used).1 = baseNameOf p := by
    simp [generateAgentName, hbase]
  have h2 : (generateAgentName sfx1 p used).2 = baseNameOf p :: used := by
    simp [generateAgentName, hbase]
  have h3 : (generateAgentName sfx2 p (generateAgentName sfx1 p used).2).1
      = baseNameOf p ++ '-' :: sfx2 := by
    rw [h2]
    simp [generateAgentName]
  refine ⟨h1, h2, h3, ?_, ?_, hlen, hchars, ?_, ?_⟩
  · rw [h3, h1]
    intro hcontra
    have hlen2 := congrArg List.length hcontra
    simp only [List.length_append, List.length_cons] at hlen2
    omega
  · rw [h3]
    exact List.drop_append 1
  · rw [h2]
    simp [generateAgentName]
  · simp [generateAgentName, resetUsedNames]

/-- Witness for C8 amended on the task test, suffixes xyz then abc, and an
empty session set. -/
theorem C8_amended_uniqueness_witness :
    (generateAgentName "xyz".toList "test".toList []).1 = baseNameOf "test".toList
    ∧ (generateAgentName "abc".toList "test".toList
        (generateAgentName "xyz".toList "test".toList []).2).1
      = baseNameOf "test".toList ++ '-' :: "abc".toList
    ∧ (generateAgentName "abc".toList "test".toList
        (generateAgentName "xyz".toList "test".toList []).2).1
      ≠ (generateAgentName "xyz".toList "test".toList []).1
    ∧ (generateAgentName "xyz".toList "test".toList resetUsedNames).1
      = baseNameOf "test".toList := by
  have h := C8_amended_uniqueness "test".toList "xyz".toList "abc".toList []
    (by decide) (by decide) (by decide)
  exact ⟨h.1, h.2.2.1, h.2.2.2.1, h.2.2.2.2.2.2.2.2⟩
